import Mathlib

/-!
Shallow embedding of the document ingestion engine of the `booklibrary`
repository (`bookParserService`: `resolvePath`, `processChapterHTML`,
`parseNcxToc`, `parsePdf`, `parseEpub`, `parseMarkdown`, `parseText`,
`parseBook`), together with proofs of the specification claims.

JavaScript semantics is modelled explicitly:
* `String.prototype.split(sep)` for a one-character separator is
  `jsSplit` (computable by kernel reduction, unlike `String.splitOn`);
* `Array.prototype.join(sep)` is `joinStr`;
* `Array.prototype.pop()` on the segment stack is `List.dropLast`
  (popping an empty array is a no-op, as in JS);
* a nullable string tested for truthiness (`if (!x)`, `x || d`) is an
  `Option String` filtered through `jsStr` — both `null`/`undefined`
  and the empty string are falsy.

External collaborators (the zip reader, the DOM/XML parser, the PDF
library) are passed in as explicit function arguments: the engine only
consumes their outputs, so the model of the engine is parametric in
them.
-/

namespace BookLibrary

/-! ### JS string primitives -/

/-- `String.prototype.split(sep)` on character lists: splitting the
empty list yields one empty field, as in JS. -/
def splitCharList (sep : Char) : List Char → List (List Char)
  | [] => [[]]
  | c :: rest =>
    let r := splitCharList sep rest
    if c = sep then [] :: r
    else
      match r with
      | [] => [[c]]
      | h :: t => (c :: h) :: t

/-- JS `s.split(sep)` for a one-character separator. -/
def jsSplit (sep : Char) (s : String) : List String :=
  (splitCharList sep s.data).map String.mk

/-- JS `Array.prototype.join(sep)`: empty array gives `""`, a singleton
gives its element, otherwise elements interleaved with `sep`. -/
def joinStr (sep : String) : List String → String
  | [] => ""
  | [a] => a
  | a :: b :: rest => a ++ sep ++ joinStr sep (b :: rest)

/-- JS `Array.prototype.join('/')`. -/
def joinSlash : List String → String := joinStr "/"

/-- JS truthiness of a nullable string: `null`/`undefined` and `""` are
falsy.  `jsStr x = some s` exactly when `x` is a truthy string `s`. -/
def jsStr : Option String → Option String
  | none => none
  | some s => if s = "" then none else some s

/-- JS `x || d` for a nullable string `x` and a default `d`. -/
def jsOr (x : Option String) (d : String) : String :=
  match jsStr x with
  | none => d
  | some s => s

/-- JS `String.prototype.toLowerCase` (ASCII range, as the engine only
compares ASCII tokens). -/
def lowerStr (s : String) : String :=
  String.mk (s.data.map Char.toLower)

/-- JS `String.prototype.startsWith`. -/
def startsWithStr (s pre : String) : Bool :=
  pre.data.isPrefixOf s.data

/-- JS `String.prototype.endsWith`. -/
def endsWithStr (s suf : String) : Bool :=
  suf.data.isSuffixOf s.data

/-- JS `String.prototype.includes` (substring test). -/
def includesStr (s sub : String) : Bool :=
  (s.data.tails).any (fun t => sub.data.isPrefixOf t)

/-- A whitespace character in the sense of JS `trim` (the forms the
engine can meet in text lines). -/
def isWsChar (c : Char) : Bool :=
  c = ' ' || c = '\t' || c = '\n' || c = '\r'

/-- JS `String.prototype.trim`. -/
def trimStr (s : String) : String :=
  String.mk (((s.data.dropWhile isWsChar).reverse.dropWhile isWsChar).reverse)

/-- JS `String.prototype.substring(n)` (drop the first `n` characters). -/
def dropStr (n : Nat) (s : String) : String :=
  String.mk (s.data.drop n)

/-- JS `s.split(sep).pop()`: the last field of the split; `split`
always returns a non-empty array, so the default is never used. -/
def lastField (sep : Char) (s : String) : String :=
  (jsSplit sep s).getLastD ""

/-- JS `name.replace(/\.ext$/i, "")`: strip one trailing occurrence of
`suf` (case-insensitively); `suf` is given in lower case. -/
def stripSuffixCI (name suf : String) : String :=
  if endsWithStr (lowerStr name) suf then
    String.mk (name.data.take (name.data.length - suf.data.length))
  else name

/-! ### `resolvePath` -/

/-- One iteration of the `for (const part of parts)` loop of
`resolvePath`: `"."` is skipped, `".."` pops the stack (a no-op on an
empty stack, as JS `Array.pop`), anything else is pushed. -/
def resolveStep (stack : List String) (part : String) : List String :=
  if part = "." then stack
  else if part = ".." then stack.dropLast
  else stack ++ [part]

/-- The loop of `resolvePath` over the split relative reference. -/
def resolveParts (stack : List String) (parts : List String) : List String :=
  parts.foldl resolveStep stack

/-- The stack of `resolvePath` after `stack.pop()`: the base path split
on `/` with its final segment (the file name) removed. -/
def dirStack (base : String) : List String :=
  (jsSplit '/' base).dropLast

/-- `resolvePath` (bookParserService): resolve a relative reference
against a base path inside the archive. -/
def resolvePath (base relative : String) : String :=
  joinSlash (resolveParts (dirStack base) (jsSplit '/' relative))

/-! ### Lemmas about the string primitives and `resolveParts` -/

theorem strAppend_assoc (a b c : String) : a ++ b ++ c = a ++ (b ++ c) := by
  obtain ⟨la⟩ := a
  obtain ⟨lb⟩ := b
  obtain ⟨lc⟩ := c
  show String.mk ((la ++ lb) ++ lc) = String.mk (la ++ (lb ++ lc))
  rw [List.append_assoc]

theorem joinStr_append_nil (sep : String) (l : List String) (h : l ≠ []) :
    joinStr sep (l ++ [""]) = joinStr sep l ++ sep := by
  induction l with
  | nil => exact absurd rfl h
  | cons a t ih =>
    cases t with
    | nil => simp [joinStr]
    | cons b t' =>
      have h2 := ih (by simp)
      calc joinStr sep ((a :: b :: t') ++ [""])
          = a ++ sep ++ joinStr sep ((b :: t') ++ [""]) := rfl
        _ = a ++ sep ++ (joinStr sep (b :: t') ++ sep) := by rw [h2]
        _ = a ++ sep ++ joinStr sep (b :: t') ++ sep := by
              rw [← strAppend_assoc]
        _ = joinStr sep (a :: b :: t') ++ sep := rfl

theorem resolveParts_plain (stack : List String) (parts : List String)
    (h : ∀ p ∈ parts, p ≠ "." ∧ p ≠ "..") :
    resolveParts stack parts = stack ++ parts := by
  induction parts generalizing stack with
  | nil => simp [resolveParts]
  | cons p rest ih =>
    have hp := h p (by simp)
    have hrest : ∀ q ∈ rest, q ≠ "." ∧ q ≠ ".." := fun q hq => h q (by simp [hq])
    simp only [resolveParts, List.foldl_cons] at *
    rw [show resolveStep stack p = stack ++ [p] by
      simp [resolveStep, hp.1, hp.2]]
    rw [ih _ hrest, List.append_assoc]
    rfl

theorem resolveParts_dotdot_drain (stack : List String) (k : Nat)
    (h : stack.length ≤ k) :
    resolveParts stack (List.replicate k "..") = [] := by
  induction k generalizing stack with
  | zero =>
    have : stack = [] := List.eq_nil_of_length_eq_zero (Nat.le_zero.mp h)
    simp [this, resolveParts]
  | succ n ih =>
    simp only [List.replicate_succ, resolveParts, List.foldl_cons]
    have hstep : resolveStep stack ".." = stack.dropLast := by
      simp [resolveStep]
    rw [hstep]
    exact ih _ (by
      have := stack.length_dropLast
      omega)

/-! ### Claim C3 -/

/-- The first half of C3 is false: with `base = "a/b/c.html"`,
`resolvePath base "."` is `"a/b"` but `resolvePath base ""` is
`"a/b/"` — JS `"".split("/")` is `[""]`, and that empty segment is
pushed onto the stack, leaving a trailing slash. -/
theorem resolvePath_dot_ne_empty_counterexample :
    resolvePath "a/b/c.html" "." ≠ resolvePath "a/b/c.html" "" := by
  decide

/-- C3 (amended): `resolvePath base "."` returns the directory stack
joined; `resolvePath base ""` pushes one empty segment, so it carries a
trailing `/` whenever the base path contains a directory part
(`dirStack base ≠ []`) and coincides with `resolvePath base "."` only
when it does not; and `resolvePath "a/b/c.html" "../x" = "a/x"`. -/
theorem resolvePath_dot_empty (base : String) :
    (dirStack base = [] → resolvePath base "" = resolvePath base ".") ∧
    (dirStack base ≠ [] →
      resolvePath base "" = resolvePath base "." ++ "/") ∧
    resolvePath "a/b/c.html" "../x" = "a/x" := by
  have hdot : resolvePath base "." = joinSlash (dirStack base) := rfl
  have hemp : resolvePath base "" = joinSlash (dirStack base ++ [""]) := rfl
  refine ⟨?_, ?_, by decide⟩
  · intro h
    rw [hdot, hemp, h]
    rfl
  · intro h
    rw [hdot, hemp]
    exact joinStr_append_nil "/" _ h

/-- Witness for `resolvePath_dot_empty` at `base = "a/b/c.html"`. -/
theorem resolvePath_dot_empty_witness :
    dirStack "a/b/c.html" ≠ [] ∧
    resolvePath "a/b/c.html" "" = resolvePath "a/b/c.html" "." ++ "/" :=
  ⟨by decide, (resolvePath_dot_empty "a/b/c.html").2.1 (by decide)⟩

/-! ### Claim C10 -/

/-- C10: `resolvePath` is a total function, and each `".."` met on an
empty segment stack is a no-op, so a reference that climbs past the
archive root with `k` leading `".."` segments (at least the depth of
the base directory) followed by plain segments returns just the join
of the pushed segments. -/
theorem resolvePath_climb_past_root (base rel : String) (k : Nat)
    (parts : List String)
    (hsplit : jsSplit '/' rel = List.replicate k ".." ++ parts)
    (hdepth : (dirStack base).length ≤ k)
    (hplain : ∀ p ∈ parts, p ≠ "." ∧ p ≠ "..") :
    resolvePath base rel = joinSlash parts := by
  unfold resolvePath
  rw [hsplit]
  unfold resolveParts
  rw [List.foldl_append]
  have h1 : List.foldl resolveStep (dirStack base) (List.replicate k "..") = [] :=
    resolveParts_dotdot_drain _ _ hdepth
  rw [h1]
  have h2 := resolveParts_plain [] parts hplain
  unfold resolveParts at h2
  rw [h2]
  rfl

/-- Witness for `resolvePath_climb_past_root`:
`resolvePath "a/b.html" "../../x/y" = "x/y"`. -/
theorem resolvePath_climb_past_root_witness :
    resolvePath "a/b.html" "../../x/y" = "x/y" :=
  resolvePath_climb_past_root "a/b.html" "../../x/y" 2 ["x", "y"]
    (by decide) (by decide) (by decide)

/-! ### TOC data model (`TocItem` of `types.ts`) -/

/-- `TocItem` (types.ts): `label`, optional `page` (PDF), optional
`href` (EPUB), optional `children`. -/
inductive TocItem where
  | mk (label : String) (href : Option String) (page : Option Nat)
      (children : Option (List TocItem))
deriving Repr

def TocItem.label : TocItem → String
  | .mk l _ _ _ => l

def TocItem.href : TocItem → Option String
  | .mk _ h _ _ => h

def TocItem.page : TocItem → Option Nat
  | .mk _ _ p _ => p

def TocItem.children : TocItem → Option (List TocItem)
  | .mk _ _ _ c => c

mutual

/-- The children-shape invariant: a `children` field is either absent
or a non-empty list of well-shaped entries. -/
def tocWF : TocItem → Prop
  | .mk _ _ _ none => True
  | .mk _ _ _ (some l) => l ≠ [] ∧ tocWFList l

/-- `tocWF` at every entry of a list. -/
def tocWFList : List TocItem → Prop
  | [] => True
  | t :: ts => tocWF t ∧ tocWFList ts

end

theorem tocWFList_forall (l : List TocItem) (h : ∀ t ∈ l, tocWF t) :
    tocWFList l := by
  induction l with
  | nil => simp [tocWFList]
  | cons t ts ih =>
    simp only [tocWFList]
    exact ⟨h t (by simp), ih fun u hu => h u (by simp [hu])⟩

/-! ### NCX navigation-map extractor (`parseNcxToc`) -/

/-- A `navPoint` element of the NCX document, as seen through the
queries the extractor makes: `navLabel > text`'s `textContent`
(`none` when the element is missing), `content`'s `src` attribute
(`none` when the `content` element or the attribute is missing), and
the direct child `navPoint`s in document order. -/
inductive NavPoint where
  | mk (labelText : Option String) (contentSrc : Option String)
      (children : List NavPoint)

/-- The parsed NCX document: `navMap` is `none` when the document has
no `navMap` element, otherwise its direct `navPoint` children. -/
structure NcxDoc where
  navMap : Option (List NavPoint)

mutual

/-- One navigation point of `parseNcxToc.parsePoints`: label defaults
to `"Untitled"`, the target is reduced to its last `/`-separated
component, children are produced only when child points exist. -/
def parsePoint : NavPoint → TocItem
  | .mk lbl src children =>
    TocItem.mk (jsOr lbl "Untitled")
      (some (if jsOr src "" = "" then ""
             else lastField '/' (jsOr src "")))
      none
      (if children.isEmpty then none else some (parsePoints children))

/-- `parsePoints` (inside `parseNcxToc`): one `TocItem` per navigation
point, in document order. -/
def parsePoints : List NavPoint → List TocItem
  | [] => []
  | p :: ps => parsePoint p :: parsePoints ps

end

theorem parsePoints_eq_map (l : List NavPoint) :
    parsePoints l = l.map parsePoint := by
  induction l with
  | nil => simp [parsePoints]
  | cons p ps ih => simp [parsePoints, ih]

/-- `parseNcxToc` (bookParserService): empty when the `navMap` element
is missing, otherwise the direct navigation points in document order.
The `opfDir` argument is accepted and unused, as in the source. -/
def parseNcxToc (xmlDoc : NcxDoc) (opfDir : String) : List TocItem :=
  match xmlDoc.navMap with
  | none => []
  | some pts => parsePoints pts

theorem parseNcxToc_eq_map (xmlDoc : NcxDoc) (opfDir : String) :
    parseNcxToc xmlDoc opfDir = (xmlDoc.navMap.getD []).map parsePoint := by
  cases xmlDoc with
  | mk nm =>
    cases nm with
    | none => rfl
    | some pts => simp [parseNcxToc, parsePoints_eq_map]

/-! ### PDF outline extractor (`processOutline`) -/

/-- The PDF document capabilities `processOutline` consumes, over an
abstract page-reference type `α`: `getDestination` resolves a named
destination (`none` models both a `null` result and a rejection, which
the source's `try`/`catch` absorbs), `getPageIndex` resolves a page
reference to a 0-based index (`none` models a rejection). -/
structure PdfDocM (α : Type) where
  getDestination : String → Option (List α)
  getPageIndex : α → Option Nat

/-- An outline node's `dest` field: a named destination (a string) or
an explicit destination array, per the `typeof node.dest === 'string'`
test in the source. -/
inductive Dest (α : Type) where
  | named (name : String)
  | explicit (arr : List α)

/-- A PDF outline node: `title`, optional `dest`, nested `items`
(absent `items` is the empty list). -/
inductive OutlineN (α : Type) where
  | mk (title : String) (dest : Option (Dest α)) (items : List (OutlineN α))

/-- The destination resolution inside `processOutline`'s `try` block:
`some i` when `node.dest` exists, resolves to a non-empty destination
array, and the renderer returns 0-based page index `i`; `none` in
every other case (no `dest`, `null`/empty destination, or a rejection
caught by the `catch`). -/
def destIndex (pdf : PdfDocM α) : Option (Dest α) → Option Nat
  | none => none
  | some d =>
    let arr := match d with
      | .named s => pdf.getDestination s
      | .explicit a => some a
    match arr with
    | none => none
    | some [] => none
    | some (first :: _) => pdf.getPageIndex first

/-- The `pageNumber` variable of `processOutline` after the
`try`/`catch`: `index + 1` on successful resolution, the initial `0`
otherwise. -/
def nodePage (pdf : PdfDocM α) (dest : Option (Dest α)) : Nat :=
  match destIndex pdf dest with
  | none => 0
  | some i => i + 1

/-- `processOutline` (inside `parsePdf`): one `TocItem` per node, in
order; children only when `node.items` is non-empty. -/
def processOutline (pdf : PdfDocM α) : List (OutlineN α) → List TocItem
  | [] => []
  | .mk title dest items :: rest =>
    TocItem.mk title none (some (nodePage pdf dest))
      (if items.isEmpty then none
       else some (processOutline pdf items)) :: processOutline pdf rest

/-- The `TocItem` `processOutline` pushes for one node, used to state
that the i-th output comes from the i-th source node. -/
def outlineItem (pdf : PdfDocM α) : OutlineN α → TocItem
  | .mk title dest items =>
    TocItem.mk title none (some (nodePage pdf dest))
      (if items.isEmpty then none else some (processOutline pdf items))

theorem processOutline_eq_map (pdf : PdfDocM α) (nodes : List (OutlineN α)) :
    processOutline pdf nodes = nodes.map (outlineItem pdf) := by
  induction nodes with
  | nil => simp [processOutline]
  | cons n rest ih =>
    obtain ⟨title, dest, items⟩ := n
    simp [processOutline, outlineItem, ih]

/-! ### Claim C5 -/

/-- C5: a processed outline node appears in the TOC in place — label
preserved, children still produced — and its page number is the
renderer's 0-based index plus one (hence at least 1) when the
destination resolves, and the sentinel 0 when resolution fails; the
traversal itself never aborts (`processOutline` is a total function). -/
theorem outline_page_resolution (pdf : PdfDocM α) (title : String)
    (dest : Option (Dest α)) (items rest : List (OutlineN α)) :
    processOutline pdf (OutlineN.mk title dest items :: rest)
      = TocItem.mk title none (some (nodePage pdf dest))
          (if items.isEmpty then none else some (processOutline pdf items))
        :: processOutline pdf rest
    ∧ (∀ i, destIndex pdf dest = some i →
        nodePage pdf dest = i + 1 ∧ 1 ≤ nodePage pdf dest)
    ∧ (destIndex pdf dest = none → nodePage pdf dest = 0) := by
  refine ⟨by simp [processOutline], ?_, ?_⟩
  · intro i hi
    simp [nodePage, hi]
  · intro h
    simp [nodePage, h]

/-- A concrete renderer model: every named destination resolves to
page reference `4`, and `getPageIndex` is the identity on indices. -/
def pdfDocW : PdfDocM Nat :=
  { getDestination := fun _ => some [4], getPageIndex := fun k => some k }

/-- Witness for `outline_page_resolution`: a node whose named
destination resolves to 0-based index 4 gets page number 5. -/
theorem outline_page_resolution_witness :
    nodePage pdfDocW (some (Dest.named "sec1")) = 4 + 1 ∧
    1 ≤ nodePage pdfDocW (some (Dest.named "sec1")) :=
  (outline_page_resolution pdfDocW "Chapter 1" (some (Dest.named "sec1"))
    [] []).2.1 4 rfl

/-! ### Claim C8 -/

mutual

theorem tocWF_parsePoint (p : NavPoint) : tocWF (parsePoint p) := by
  obtain ⟨lbl, src, children⟩ := p
  rw [parsePoint]
  by_cases h : children.isEmpty
  · rw [if_pos h]
    simp [tocWF]
  · rw [if_neg h]
    simp only [tocWF]
    constructor
    · rw [parsePoints_eq_map]
      simp only [ne_eq, List.map_eq_nil_iff]
      simpa [List.isEmpty_iff] using h
    · exact tocWF_parsePoints children

theorem tocWF_parsePoints (l : List NavPoint) : tocWFList (parsePoints l) := by
  cases l with
  | nil => simp [parsePoints, tocWFList]
  | cons p ps =>
    rw [parsePoints]
    simp only [tocWFList]
    exact ⟨tocWF_parsePoint p, tocWF_parsePoints ps⟩

end

theorem tocWF_processOutline (pdf : PdfDocM α) (nodes : List (OutlineN α)) :
    tocWFList (processOutline pdf nodes) := by
  match nodes with
  | [] => simp [processOutline, tocWFList]
  | .mk title dest items :: rest =>
    have hitems := tocWF_processOutline pdf items
    have hrest := tocWF_processOutline pdf rest
    simp only [processOutline, tocWFList]
    refine ⟨?_, hrest⟩
    by_cases h : items.isEmpty
    · rw [if_pos h]
      simp [tocWF]
    · rw [if_neg h]
      simp only [tocWF]
      refine ⟨?_, hitems⟩
      rw [processOutline_eq_map]
      simp only [ne_eq, List.map_eq_nil_iff]
      simpa [List.isEmpty_iff] using h

/-- C8: both TOC extractors produce trees in which a node with no
nested entries has an absent `children` field, and a node with nested
entries has a non-empty `children` list; the output lists are
position-for-position maps of the source lists (`parsePoint`,
`outlineItem`), so sibling order matches source document order. -/
theorem toc_children_shape (xmlDoc : NcxDoc) (opfDir : String)
    (pdf : PdfDocM α) (nodes : List (OutlineN α)) :
    tocWFList (parseNcxToc xmlDoc opfDir)
    ∧ tocWFList (processOutline pdf nodes)
    ∧ parseNcxToc xmlDoc opfDir = (xmlDoc.navMap.getD []).map parsePoint
    ∧ processOutline pdf nodes = nodes.map (outlineItem pdf) := by
  refine ⟨?_, tocWF_processOutline pdf nodes, parseNcxToc_eq_map xmlDoc opfDir,
    processOutline_eq_map pdf nodes⟩
  rw [parseNcxToc_eq_map, ← parsePoints_eq_map]
  exact tocWF_parsePoints (xmlDoc.navMap.getD [])

/-! ### The normalized output record (`ParsedBook`) -/

/-- The `type` discriminator of `ParsedBook`. -/
inductive BookType where
  | text
  | pdf
  | epub
deriving DecidableEq, Repr

/-- `ParsedBook` (bookParserService): the normalized output record.
PDF bytes are modelled as a `String` payload. -/
structure ParsedBook where
  title : String
  author : String
  content : String
  pdfData : Option String
  type : BookType
  toc : Option (List TocItem)
  coverImage : Option String

/-! ### `Promise.all` under an explicit completion schedule

The source dispatches independent tasks together (`map` + `Promise.all`)
and collects their results keyed by original position.  Tasks are
independent (no task reads another's result), so task `i`'s value is a
pure function of `i`; only the completion order is nondeterministic.
`runTasks` fills one slot per completion event, in the order given by an
arbitrary `schedule` of task indices; a schedule is complete when every
index has completed at least once (perhaps with repetitions). -/

/-- One slot array after running the completion events of `sched`. -/
def runTasks (results : Nat → β) (sched : List Nat)
    (acc : Nat → Option β) : Nat → Option β :=
  match sched with
  | [] => acc
  | i :: rest => runTasks results rest
      (fun j => if j = i then some (results i) else acc j)

theorem runTasks_not_mem (results : Nat → β) (sched : List Nat)
    (acc : Nat → Option β) (j : Nat) (hj : j ∉ sched) :
    runTasks results sched acc j = acc j := by
  induction sched generalizing acc with
  | nil => rfl
  | cons i rest ih =>
    simp only [runTasks]
    rw [ih]
    · simp only [List.mem_cons, not_or] at hj
      simp [hj.1]
    · simp only [List.mem_cons, not_or] at hj
      exact hj.2

theorem runTasks_mem (results : Nat → β) (sched : List Nat)
    (acc : Nat → Option β) (j : Nat) (hj : j ∈ sched) :
    runTasks results sched acc j = some (results j) := by
  induction sched generalizing acc with
  | nil => cases hj
  | cons i rest ih =>
    simp only [runTasks]
    by_cases hmem : j ∈ rest
    · exact ih _ hmem
    · have hji : j = i := by
        rcases List.mem_cons.mp hj with h | h
        · exact h
        · exact absurd h hmem
      rw [runTasks_not_mem results rest _ j hmem]
      simp [hji]

/-- The result array of `Promise.all` over `tasks` completed in order
`sched`, one slot per original position (`d` fills a slot whose task
never completed; under a complete schedule it is never used). -/
def promiseAll (tasks : List β) (d : β) (sched : List Nat) : List β :=
  (List.range tasks.length).map
    (fun i => (runTasks (fun k => tasks.getD k d) sched (fun _ => none) i).getD d)

/-- `Promise.all` keyed by position: under any complete schedule the
collected array is the task list in original order, independent of
completion order. -/
theorem promiseAll_covers (tasks : List β) (d : β) (sched : List Nat)
    (h : ∀ i < tasks.length, i ∈ sched) :
    promiseAll tasks d sched = tasks := by
  apply List.ext_getElem
  · simp [promiseAll]
  · intro i h1 h2
    simp only [promiseAll, List.length_range] at h1 ⊢
    rw [List.getElem_map, List.getElem_range]
    rw [runTasks_mem _ _ _ _ (h i h2)]
    simp [List.getD_eq_getElem?_getD, List.getElem?_eq_getElem h2]

/-! ### Chapter assembly (`processChapterHTML`) -/

/-- What the per-image closure does to its own `img` element: either
leaves it alone or replaces its `src` with a data URI (and sets the
inline style). -/
inductive ImgResult where
  | untouched
  | inlined (dataUri : String)
deriving DecidableEq, Repr

/-- The chapter markup as seen through the DOM calls the assembler
makes: the `src` attributes of its `img` elements in document order,
and the serialization `body.innerHTML` as a function of the per-image
updates. -/
structure HtmlDoc where
  imgs : List (Option String)
  renderBody : List ImgResult → String

/-- The MIME tag chosen from a file extension
(`png`/`gif`/`svg`/`webp`, default `image/jpeg`). -/
def mimeOf (ext : String) : String :=
  if ext = "png" then "image/png"
  else if ext = "gif" then "image/gif"
  else if ext = "svg" then "image/svg+xml"
  else if ext = "webp" then "image/webp"
  else "image/jpeg"

/-- `path.split('.').pop()?.toLowerCase() || 'jpg'`. -/
def extOfPath (path : String) : String :=
  jsOr (some (lowerStr (lastField '.' path))) "jpg"

/-- `src.split('#')[0].split('?')[0]`. -/
def cleanSrcOf (src : String) : String :=
  (jsSplit '?' ((jsSplit '#' src).headD "")).headD ""

/-- The per-image closure of `processChapterHTML`: skip a missing or
empty `src` and absolute (`http…`) or already-inlined (`data:…`)
references; otherwise strip fragment/query, resolve against the
chapter's own path, and when the archive has the file, inline it as a
base64 data URI with extension-derived MIME type; a failed lookup
leaves the reference untouched. -/
def processImg (zip : String → Option String) (b64 : String → String)
    (fullPath : String) (src : Option String) : ImgResult :=
  match jsStr src with
  | none => .untouched
  | some s =>
    if startsWithStr s "http" || startsWithStr s "data:" then .untouched
    else
      let imagePath := resolvePath fullPath (cleanSrcOf s)
      match zip imagePath with
      | none => .untouched
      | some data =>
        .inlined ("data:" ++ mimeOf (extOfPath imagePath) ++ ";base64," ++ b64 data)

/-- `processChapterHTML` with the per-image loads completing in the
order `isched`: parse the markup, let each image closure update its own
element, serialize the body and wrap it in a `div` whose id is the
chapter's file name and whose `data-path` is the full archive path. -/
def processChapterHTMLSched (parseHtml : String → HtmlDoc)
    (zip : String → Option String) (b64 : String → String)
    (fullPath rawContent : String) (isched : List Nat) : String :=
  let doc := parseHtml rawContent
  let results := promiseAll (doc.imgs.map (processImg zip b64 fullPath))
    ImgResult.untouched isched
  "<div id=\"" ++ lastField '/' fullPath ++ "\" class=\"epub-chapter\" data-path=\""
    ++ fullPath ++ "\">" ++ doc.renderBody results ++ "</div>"

/-- `processChapterHTML` with every per-image load completed (the value
every complete schedule gives). -/
def processChapterHTML (parseHtml : String → HtmlDoc)
    (zip : String → Option String) (b64 : String → String)
    (fullPath rawContent : String) : String :=
  let doc := parseHtml rawContent
  let results := doc.imgs.map (processImg zip b64 fullPath)
  "<div id=\"" ++ lastField '/' fullPath ++ "\" class=\"epub-chapter\" data-path=\""
    ++ fullPath ++ "\">" ++ doc.renderBody results ++ "</div>"

theorem processChapterHTMLSched_covers (parseHtml : String → HtmlDoc)
    (zip : String → Option String) (b64 : String → String)
    (fullPath rawContent : String) (isched : List Nat)
    (h : ∀ i < (parseHtml rawContent).imgs.length, i ∈ isched) :
    processChapterHTMLSched parseHtml zip b64 fullPath rawContent isched
      = processChapterHTML parseHtml zip b64 fullPath rawContent := by
  unfold processChapterHTMLSched processChapterHTML
  dsimp only
  rw [promiseAll_covers]
  intro i hi
  exact h i (by simpa using hi)

/-! ### Package descriptor model and `parseEpub` -/

/-- A `manifest > item` element of the package descriptor, through the
attribute reads the engine makes. -/
structure XmlItem where
  id : Option String
  href : Option String
  mediaType : Option String
  properties : Option String

/-- A `spine > itemref` element. -/
structure ItemRef where
  idref : Option String

/-- The parsed package descriptor, through the queries `parseEpub`
makes: `metadata > title` and `metadata > creator` text content,
the composed value `meta[name="cover"]?.getAttribute('content')`,
manifest items and spine references in document order. -/
structure OpfDoc where
  title : Option String
  creator : Option String
  coverMetaContent : Option String
  manifest : List XmlItem
  spine : List ItemRef

/-- The parsed container pointer document, through the composed query
`querySelector("rootfile")?.getAttribute("full-path")`. -/
structure ContainerDoc where
  rootfileFullPath : Option String

/-- The external collaborators `parseEpub` consumes: the archive entry
reader (`none` = no such entry), the base64 encoder, and the XML/HTML
parsers. -/
structure EpubCtx where
  zip : String → Option String
  b64 : String → String
  parseContainer : String → ContainerDoc
  parseOpf : String → OpfDoc
  parseHtml : String → HtmlDoc
  parseNcx : String → NcxDoc

/-- Strategy A of the cover search:
`metadata > meta[name="cover"]`'s `content` attribute. -/
def coverMethodA (opf : OpfDoc) : Option String :=
  jsStr opf.coverMetaContent

/-- Strategy B: the id of the first manifest item whose `properties`
attribute contains `cover-image` (`null` when the item is missing or
its id is missing/empty). -/
def coverMethodB (opf : OpfDoc) : Option String :=
  match opf.manifest.find? (fun i =>
      match i.properties with
      | none => false
      | some p => includesStr p "cover-image") with
  | none => none
  | some item => jsStr item.id

/-- Strategy C: the id of the first manifest item whose id contains
`cover` (case-insensitively) and whose media type starts with
`image/`. -/
def coverMethodC (opf : OpfDoc) : Option String :=
  match opf.manifest.find? (fun i =>
      (match i.id with
       | none => false
       | some id => includesStr (lowerStr id) "cover")
      && (match i.mediaType with
          | none => false
          | some mt => startsWithStr mt "image/")) with
  | none => none
  | some item => jsStr item.id

/-- The `coverId` variable after the three strategy blocks: each later
strategy runs only while `coverId` is still falsy. -/
def findCoverId (opf : OpfDoc) : Option String :=
  match coverMethodA opf with
  | some cid => some cid
  | none =>
    match coverMethodB opf with
    | some cid => some cid
    | none => coverMethodC opf

/-- The `coverImage` value of `parseEpub`: resolve the chosen id
against the manifest, its href against the package path, and the
resulting path against the archive; any failure leaves the cover
absent. -/
def coverOf (ctx : EpubCtx) (opf : OpfDoc) (opfPath : String) : Option String :=
  match findCoverId opf with
  | none => none
  | some coverId =>
    match opf.manifest.find? (fun i => i.id == some coverId) with
    | none => none
    | some coverItem =>
      match jsStr coverItem.href with
      | none => none
      | some href =>
        let fullCoverPath := resolvePath opfPath href
        match ctx.zip fullCoverPath with
        | none => none
        | some data =>
          let ext := extOfPath fullCoverPath
          some ("data:" ++ (if ext = "png" then "image/png" else "image/jpeg")
            ++ ";base64," ++ ctx.b64 data)

/-- One spine entry's chapter fragment with its image loads completing
in order `isched`: an unresolved `idref`, a missing/empty `href`, or a
missing/empty chapter file contributes the empty string. -/
def chapterFragmentSched (ctx : EpubCtx) (opfPath : String)
    (manifest : List XmlItem) (itemRef : ItemRef) (isched : List Nat) : String :=
  match manifest.find? (fun i => i.id == itemRef.idref) with
  | none => ""
  | some item =>
    match jsStr item.href with
    | none => ""
    | some href =>
      let fullHref := resolvePath opfPath href
      match jsStr (ctx.zip fullHref) with
      | none => ""
      | some fileContent =>
        processChapterHTMLSched ctx.parseHtml ctx.zip ctx.b64 fullHref
          fileContent isched

/-- One spine entry's chapter fragment with every image load
completed. -/
def chapterFragment (ctx : EpubCtx) (opfPath : String)
    (manifest : List XmlItem) (itemRef : ItemRef) : String :=
  match manifest.find? (fun i => i.id == itemRef.idref) with
  | none => ""
  | some item =>
    match jsStr item.href with
    | none => ""
    | some href =>
      let fullHref := resolvePath opfPath href
      match jsStr (ctx.zip fullHref) with
      | none => ""
      | some fileContent =>
        processChapterHTML ctx.parseHtml ctx.zip ctx.b64 fullHref fileContent

/-- The image count of one spine entry's chapter, along the same
lookup chain as `chapterFragmentSched`. -/
def chapterImgCount (ctx : EpubCtx) (opfPath : String)
    (manifest : List XmlItem) (itemRef : ItemRef) : Nat :=
  match manifest.find? (fun i => i.id == itemRef.idref) with
  | none => 0
  | some item =>
    match jsStr item.href with
    | none => 0
    | some href =>
      match jsStr (ctx.zip (resolvePath opfPath href)) with
      | none => 0
      | some fileContent => (ctx.parseHtml fileContent).imgs.length

/-- `opfPath.includes('/') ? opfPath.substring(0, opfPath.lastIndexOf('/') + 1) : ''`. -/
def opfDirOf (opfPath : String) : String :=
  if includesStr opfPath "/" then
    String.mk (opfPath.data.take
      (opfPath.data.length - (opfPath.data.reverse.takeWhile (fun c => c ≠ '/')).length))
  else ""

/-- The TOC step of `parseEpub`: find the NCX manifest item by media
type, resolve and read it, and extract the navigation map; empty when
any step yields nothing. -/
def epubToc (ctx : EpubCtx) (opfPath : String) (opf : OpfDoc) : List TocItem :=
  match opf.manifest.find? (fun i =>
      i.mediaType == some "application/x-dtbncx+xml") with
  | none => []
  | some ncxItem =>
    let ncxHref := resolvePath opfPath (jsOr ncxItem.href "")
    match jsStr (ctx.zip ncxHref) with
    | none => []
    | some ncxContent => parseNcxToc (ctx.parseNcx ncxContent) (opfDirOf opfPath)

/-- The structural prefix of `parseEpub`: the container pointer entry,
the package path inside it, and the package descriptor file.  `none`
exactly when one of the three fatal checks fires. -/
def epubParts (ctx : EpubCtx) : Option (String × OpfDoc) :=
  match jsStr (ctx.zip "META-INF/container.xml") with
  | none => none
  | some container =>
    match jsStr ((ctx.parseContainer container).rootfileFullPath) with
    | none => none
    | some opfPath =>
      match jsStr (ctx.zip opfPath) with
      | none => none
      | some opfContent => some (opfPath, ctx.parseOpf opfContent)

/-- `parseEpub` (bookParserService) with the spine entries completing
in order `csched` and chapter `i`'s image loads completing in order
`ischeds i`. -/
def parseEpubSched (ctx : EpubCtx) (name : String) (csched : List Nat)
    (ischeds : Nat → List Nat) : Except String ParsedBook :=
  match jsStr (ctx.zip "META-INF/container.xml") with
  | none => .error "Invalid EPUB: Missing container.xml"
  | some container =>
    match jsStr ((ctx.parseContainer container).rootfileFullPath) with
    | none => .error "Invalid EPUB: No OPF path found"
    | some opfPath =>
      match jsStr (ctx.zip opfPath) with
      | none => .error "Invalid EPUB: OPF file missing"
      | some opfContent =>
        let opfDoc := ctx.parseOpf opfContent
        let title := jsOr opfDoc.title (stripSuffixCI name ".epub")
        let author := jsOr opfDoc.creator "Unknown Author"
        let coverImage := coverOf ctx opfDoc opfPath
        let chapterTasks := opfDoc.spine.enum.map
          (fun p => chapterFragmentSched ctx opfPath opfDoc.manifest p.2 (ischeds p.1))
        let chapters := promiseAll chapterTasks "" csched
        let fullHtml := joinStr "\n" chapters
        let toc := epubToc ctx opfPath opfDoc
        .ok { title := title, author := author, content := fullHtml,
              pdfData := none, type := .epub, toc := some toc,
              coverImage := coverImage }

/-! ### Claim C1 -/

theorem chapterFragmentSched_covers (ctx : EpubCtx) (opfPath : String)
    (manifest : List XmlItem) (itemRef : ItemRef) (isched : List Nat)
    (h : ∀ k < chapterImgCount ctx opfPath manifest itemRef, k ∈ isched) :
    chapterFragmentSched ctx opfPath manifest itemRef isched
      = chapterFragment ctx opfPath manifest itemRef := by
  unfold chapterFragmentSched chapterFragment
  unfold chapterImgCount at h
  cases hfind : manifest.find? (fun i => i.id == itemRef.idref) with
  | none => simp [hfind]
  | some item =>
    simp only [hfind] at h ⊢
    cases hhref : jsStr item.href with
    | none => simp
    | some href =>
      simp only [hhref] at h ⊢
      cases hfile : jsStr (ctx.zip (resolvePath opfPath href)) with
      | none => simp [hfile]
      | some fileContent =>
        simp only [hfile] at h ⊢
        exact processChapterHTMLSched_covers ctx.parseHtml ctx.zip ctx.b64
          (resolvePath opfPath href) fileContent isched h

theorem chapterTasks_eq (ctx : EpubCtx) (opfPath : String)
    (manifest : List XmlItem) (spine : List ItemRef) (ischeds : Nat → List Nat)
    (hi : ∀ j < spine.length,
      ∀ k < chapterImgCount ctx opfPath manifest (spine.getD j ⟨none⟩),
        k ∈ ischeds j) :
    spine.enum.map
        (fun p => chapterFragmentSched ctx opfPath manifest p.2 (ischeds p.1))
      = spine.map (chapterFragment ctx opfPath manifest) := by
  apply List.ext_getElem
  · simp
  · intro j h1 h2
    simp only [List.getElem_map, List.getElem_enum]
    apply chapterFragmentSched_covers
    intro k hk
    have hlen : j < spine.length := by simpa using h2
    have hget : spine.getD j ⟨none⟩ = spine[j] := List.getD_eq_getElem spine ⟨none⟩ hlen
    exact hi j hlen k (by rwa [hget])

/-- C1: whenever the structural prefix of `parseEpub` succeeds, the
parse succeeds and the `content` field is the newline-join of the pure
per-chapter fragments taken in spine order — for every complete
chapter-completion schedule `csched` and every complete family of
per-image completion schedules `ischeds`, so the result is independent
of chapter and image completion order. -/
theorem epub_content_spine_order (ctx : EpubCtx) (name : String)
    (csched : List Nat) (ischeds : Nat → List Nat) (opfPath : String)
    (opf : OpfDoc)
    (hparts : epubParts ctx = some (opfPath, opf))
    (hc : ∀ i < opf.spine.length, i ∈ csched)
    (hi : ∀ j < opf.spine.length,
      ∀ k < chapterImgCount ctx opfPath opf.manifest (opf.spine.getD j ⟨none⟩),
        k ∈ ischeds j) :
    ∃ b, parseEpubSched ctx name csched ischeds = .ok b
      ∧ b.content
        = joinStr "\n" (opf.spine.map (chapterFragment ctx opfPath opf.manifest)) := by
  unfold epubParts at hparts
  unfold parseEpubSched
  cases h1 : jsStr (ctx.zip "META-INF/container.xml") with
  | none => simp [h1] at hparts
  | some container =>
    simp only [h1] at hparts ⊢
    cases h2 : jsStr ((ctx.parseContainer container).rootfileFullPath) with
    | none => simp [h2] at hparts
    | some opfPath2 =>
      simp only [h2] at hparts ⊢
      cases h3 : jsStr (ctx.zip opfPath2) with
      | none => simp [h3] at hparts
      | some opfContent =>
        simp only [h3] at hparts ⊢
        simp only [Option.some.injEq, Prod.mk.injEq] at hparts
        obtain ⟨hpath, hopf⟩ := hparts
        refine ⟨_, rfl, ?_⟩
        dsimp only
        rw [hpath, hopf]
        rw [chapterTasks_eq ctx opfPath opf.manifest opf.spine ischeds hi]
        rw [promiseAll_covers]
        intro i hilen
        exact hc i (by simpa using hilen)

/-! ### Concrete fixtures for witnesses -/

/-- A small concrete archive: container pointer, package descriptor,
two chapters, one image. -/
def zipW : String → Option String := fun p =>
  if p = "META-INF/container.xml" then some "containerXml"
  else if p = "OEBPS/content.opf" then some "opfXml"
  else if p = "OEBPS/ch1.html" then some "<p>one</p>"
  else if p = "OEBPS/ch2.html" then some "<p>two</p>"
  else if p = "OEBPS/images/pic.png" then some "PNGDATA"
  else none

/-- A trivial base64 encoder model. -/
def b64Id : String → String := fun s => s

/-- A trivial markup parser model: no images, the body serializes to
the raw text. -/
def htmlW : String → HtmlDoc := fun s => { imgs := [], renderBody := fun _ => s }

/-- The package descriptor of the fixture: two spine chapters. -/
def opfW : OpfDoc :=
  { title := some "T", creator := none, coverMetaContent := none,
    manifest := [⟨some "c1", some "ch1.html", none, none⟩,
                 ⟨some "c2", some "ch2.html", none, none⟩],
    spine := [⟨some "c1"⟩, ⟨some "c2"⟩] }

/-- The fixture collaborators. -/
def epubCtxW : EpubCtx :=
  { zip := zipW, b64 := b64Id,
    parseContainer := fun _ => ⟨some "OEBPS/content.opf"⟩,
    parseOpf := fun _ => opfW, parseHtml := htmlW,
    parseNcx := fun _ => ⟨none⟩ }

/-- Witness for `epub_content_spine_order`: the two-chapter fixture
with the chapters completing in reverse order `[1, 0]`. -/
theorem epub_content_spine_order_witness :
    ∃ b, parseEpubSched epubCtxW "b.epub" [1, 0] (fun _ => []) = .ok b
      ∧ b.content
        = joinStr "\n"
            (opfW.spine.map (chapterFragment epubCtxW "OEBPS/content.opf" opfW.manifest)) :=
  epub_content_spine_order epubCtxW "b.epub" [1, 0] (fun _ => [])
    "OEBPS/content.opf" opfW rfl (by decide) (by decide)

/-! ### Claim C7 -/

/-- C7: the per-image rules of chapter assembly — a reference starting
with `http` or `data:` is left untouched; otherwise the reference is
stripped of fragment/query, resolved against the chapter's own path,
and, when the archive has the file, replaced by the base64 data form
with extension-derived MIME type (`png`/`gif`/`svg`/`webp`, default
`image/jpeg`); a failed lookup leaves the reference untouched; the
chapter result applies the per-image rule to every image independently
(one image's outcome never aborts the others or the chapter). -/
theorem chapter_image_rules (zip : String → Option String)
    (b64 : String → String) (parseHtml : String → HtmlDoc)
    (fullPath rawContent : String) (src : Option String) :
    (∀ s, jsStr src = some s →
      (startsWithStr s "http" || startsWithStr s "data:") = true →
      processImg zip b64 fullPath src = ImgResult.untouched)
    ∧ (∀ s, jsStr src = some s →
      (startsWithStr s "http" || startsWithStr s "data:") = false →
      (zip (resolvePath fullPath (cleanSrcOf s)) = none →
        processImg zip b64 fullPath src = ImgResult.untouched)
      ∧ (∀ data, zip (resolvePath fullPath (cleanSrcOf s)) = some data →
        processImg zip b64 fullPath src = ImgResult.inlined
          ("data:" ++ mimeOf (extOfPath (resolvePath fullPath (cleanSrcOf s)))
            ++ ";base64," ++ b64 data)))
    ∧ mimeOf "png" = "image/png" ∧ mimeOf "gif" = "image/gif"
    ∧ mimeOf "svg" = "image/svg+xml" ∧ mimeOf "webp" = "image/webp"
    ∧ (∀ e, e ≠ "png" → e ≠ "gif" → e ≠ "svg" → e ≠ "webp" →
        mimeOf e = "image/jpeg")
    ∧ processChapterHTML parseHtml zip b64 fullPath rawContent
      = "<div id=\"" ++ lastField '/' fullPath
        ++ "\" class=\"epub-chapter\" data-path=\"" ++ fullPath ++ "\">"
        ++ (parseHtml rawContent).renderBody
            ((parseHtml rawContent).imgs.map (processImg zip b64 fullPath))
        ++ "</div>" := by
  refine ⟨?_, ?_, rfl, rfl, rfl, rfl, ?_, rfl⟩
  · intro s hs habs
    simp [processImg, hs, habs]
  · intro s hs habs
    constructor
    · intro hmiss
      simp [processImg, hs, habs, hmiss]
    · intro data hdata
      simp [processImg, hs, habs, hdata]
  · intro e h1 h2 h3 h4
    simp [mimeOf, h1, h2, h3, h4]

/-- Witness for `chapter_image_rules`: an absolute `http` reference is
left untouched, and a relative reference to an archived `.png` is
inlined as `data:image/png;base64,…`. -/
theorem chapter_image_rules_witness :
    processImg zipW b64Id "OEBPS/ch1.html" (some "http://x/y.png")
      = ImgResult.untouched
    ∧ processImg zipW b64Id "OEBPS/ch1.html" (some "images/pic.png")
      = ImgResult.inlined
          ("data:" ++ mimeOf (extOfPath (resolvePath "OEBPS/ch1.html"
              (cleanSrcOf "images/pic.png"))) ++ ";base64," ++ b64Id "PNGDATA") :=
  ⟨(chapter_image_rules zipW b64Id htmlW "OEBPS/ch1.html" ""
      (some "http://x/y.png")).1 "http://x/y.png" rfl (by decide),
   ((chapter_image_rules zipW b64Id htmlW "OEBPS/ch1.html" ""
      (some "images/pic.png")).2.1 "images/pic.png" rfl (by decide)).2
      "PNGDATA" (by decide)⟩

/-! ### Claim C4 -/

/-- A package descriptor whose metadata names a cover id with no
manifest entry, while the manifest holds a perfectly resolvable
`cover-image` item. -/
def opfCoverConflict : OpfDoc :=
  { title := none, creator := none,
    coverMetaContent := some "ghost",
    manifest := [⟨some "realcover", some "cover.png", some "image/png",
                  some "cover-image"⟩],
    spine := [] }

/-- Collaborators for the cover fixture: the archive has the real
cover file. -/
def epubCtxCover : EpubCtx :=
  { zip := fun p => if p = "OEBPS/cover.png" then some "IMG" else none,
    b64 := b64Id,
    parseContainer := fun _ => ⟨none⟩,
    parseOpf := fun _ => opfCoverConflict, parseHtml := htmlW,
    parseNcx := fun _ => ⟨none⟩ }

/-- C4's fall-through clause is false: when the metadata names an
unresolvable cover id, `parseEpub` does not fall through to the
`cover-image` manifest item — it yields no cover, even though dropping
the metadata entry alone makes strategy B resolve that same cover. -/
theorem cover_no_fallthrough_counterexample :
    coverOf epubCtxCover opfCoverConflict "OEBPS/content.opf" = none
    ∧ coverMethodB opfCoverConflict = some "realcover"
    ∧ coverOf epubCtxCover { opfCoverConflict with coverMetaContent := none }
        "OEBPS/content.opf"
      = some ("data:image/png;base64," ++ b64Id "IMG") := by
  refine ⟨rfl, rfl, rfl⟩

/-- C4 (amended): the three strategies are consulted in order only to
choose a candidate id — a metadata-named id wins whenever present,
strategy B is consulted only when the metadata yields no id, strategy C
only when B also yields none — and once a candidate id is chosen, any
resolution failure (no manifest entry with that id, missing/empty
href, missing archive file) yields an absent cover without error and
without falling through to the remaining strategies; exhausting all
three id sources likewise yields an absent cover. -/
theorem cover_strategy_order (ctx : EpubCtx) (opf : OpfDoc) (opfPath : String) :
    (∀ cid, coverMethodA opf = some cid → findCoverId opf = some cid)
    ∧ (coverMethodA opf = none →
        ∀ cid, coverMethodB opf = some cid → findCoverId opf = some cid)
    ∧ (coverMethodA opf = none → coverMethodB opf = none →
        findCoverId opf = coverMethodC opf)
    ∧ (findCoverId opf = none → coverOf ctx opf opfPath = none)
    ∧ (∀ cid, findCoverId opf = some cid →
        opf.manifest.find? (fun i => i.id == some cid) = none →
        coverOf ctx opf opfPath = none)
    ∧ (∀ cid item, findCoverId opf = some cid →
        opf.manifest.find? (fun i => i.id == some cid) = some item →
        jsStr item.href = none → coverOf ctx opf opfPath = none)
    ∧ (∀ cid item href, findCoverId opf = some cid →
        opf.manifest.find? (fun i => i.id == some cid) = some item →
        jsStr item.href = some href →
        ctx.zip (resolvePath opfPath href) = none →
        coverOf ctx opf opfPath = none) := by
  refine ⟨?_, ?_, ?_, ?_, ?_, ?_, ?_⟩
  · intro cid h
    simp [findCoverId, h]
  · intro ha cid hb
    simp [findCoverId, ha, hb]
  · intro ha hb
    simp [findCoverId, ha, hb]
  · intro h
    simp [coverOf, h]
  · intro cid h hfind
    simp [coverOf, h, hfind]
  · intro cid item h hfind hhref
    simp [coverOf, h, hfind, hhref]
  · intro cid item href h hfind hhref hzip
    simp [coverOf, h, hfind, hhref, hzip]

/-- Witness for `cover_strategy_order` at the conflict fixture: the
metadata id `"ghost"` is chosen and, having no manifest entry, the
cover comes out absent. -/
theorem cover_strategy_order_witness :
    coverOf epubCtxCover opfCoverConflict "OEBPS/content.opf" = none :=
  (cover_strategy_order epubCtxCover opfCoverConflict "OEBPS/content.opf").2.2.2.2.1
    "ghost" rfl rfl

/-! ### Claim C6 -/

/-- C6: `parseEpub` fails exactly when one of the three structural
checks fires — missing (or empty) container pointer entry, missing (or
empty) package-descriptor path in it, missing (or empty) package
descriptor file — each with its own error; and on success, an absent
`metadata > title` or `metadata > creator` is not fatal, yielding the
file-name-derived title and `"Unknown Author"`. -/
theorem epub_fatal_structure (ctx : EpubCtx) (name : String)
    (csched : List Nat) (ischeds : Nat → List Nat) :
    ((∃ e, parseEpubSched ctx name csched ischeds = .error e) ↔
      epubParts ctx = none)
    ∧ (jsStr (ctx.zip "META-INF/container.xml") = none →
        parseEpubSched ctx name csched ischeds
          = .error "Invalid EPUB: Missing container.xml")
    ∧ (∀ container, jsStr (ctx.zip "META-INF/container.xml") = some container →
        jsStr ((ctx.parseContainer container).rootfileFullPath) = none →
        parseEpubSched ctx name csched ischeds
          = .error "Invalid EPUB: No OPF path found")
    ∧ (∀ container opfPath,
        jsStr (ctx.zip "META-INF/container.xml") = some container →
        jsStr ((ctx.parseContainer container).rootfileFullPath) = some opfPath →
        jsStr (ctx.zip opfPath) = none →
        parseEpubSched ctx name csched ischeds
          = .error "Invalid EPUB: OPF file missing")
    ∧ (∀ b opfPath opf, parseEpubSched ctx name csched ischeds = .ok b →
        epubParts ctx = some (opfPath, opf) →
        (jsStr opf.title = none → b.title = stripSuffixCI name ".epub")
        ∧ (jsStr opf.creator = none → b.author = "Unknown Author")) := by
  refine ⟨?_, ?_, ?_, ?_, ?_⟩
  · unfold parseEpubSched epubParts
    cases h1 : jsStr (ctx.zip "META-INF/container.xml") with
    | none => simp
    | some container =>
      simp only
      cases h2 : jsStr ((ctx.parseContainer container).rootfileFullPath) with
      | none => simp
      | some opfPath =>
        simp only
        cases h3 : jsStr (ctx.zip opfPath) with
        | none => simp
        | some opfContent => simp
  · intro h1
    unfold parseEpubSched
    simp [h1]
  · intro container h1 h2
    unfold parseEpubSched
    simp [h1, h2]
  · intro container opfPath h1 h2 h3
    unfold parseEpubSched
    simp [h1, h2, h3]
  · intro b opfPath opf hok hparts
    unfold parseEpubSched at hok
    unfold epubParts at hparts
    cases h1 : jsStr (ctx.zip "META-INF/container.xml") with
    | none => simp [h1] at hok
    | some container =>
      simp only [h1] at hok hparts
      cases h2 : jsStr ((ctx.parseContainer container).rootfileFullPath) with
      | none => simp [h2] at hok
      | some opfPath2 =>
        simp only [h2] at hok hparts
        cases h3 : jsStr (ctx.zip opfPath2) with
        | none => simp [h3] at hok
        | some opfContent =>
          simp only [h3] at hok hparts
          simp only [Option.some.injEq, Prod.mk.injEq] at hparts
          obtain ⟨hpath, hopf⟩ := hparts
          simp only [Except.ok.injEq] at hok
          constructor
          · intro htitle
            rw [← hopf] at htitle
            rw [← hok]
            simp [jsOr, htitle]
          · intro hauthor
            rw [← hopf] at hauthor
            rw [← hok]
            simp [jsOr, hauthor]

/-- Witness for `epub_fatal_structure`: the cover fixture's archive
has no container pointer entry, so its parse fails with the matching
error. -/
theorem epub_fatal_structure_witness :
    parseEpubSched epubCtxCover "x.epub" [] (fun _ => [])
      = .error "Invalid EPUB: Missing container.xml" :=
  (epub_fatal_structure epubCtxCover "x.epub" [] (fun _ => [])).2.1 rfl

/-! ### `parseMarkdown`, `parseText`, `parsePdf`, `parseBook` -/

/-- `parseMarkdown` (bookParserService): scan the first (at most) 10
lines for one whose trimmed form starts with `"# "`; the first hit,
after dropping that prefix and trimming, becomes the title; otherwise
the file name with a trailing `.md` (case-insensitive) stripped. -/
def parseMarkdown (name text : String) : ParsedBook :=
  let lines := jsSplit '\n' text
  let title :=
    match (lines.take 10).find? (fun l => startsWithStr (trimStr l) "# ") with
    | some l => trimStr (dropStr 2 (trimStr l))
    | none => stripSuffixCI name ".md"
  { title := title, author := "Unknown", content := text,
    pdfData := none, type := .text, toc := none, coverImage := none }

/-- `parseText` (bookParserService). -/
def parseText (name text : String) : ParsedBook :=
  { title := stripSuffixCI name ".txt", author := "Unknown", content := text,
    pdfData := none, type := .text, toc := none, coverImage := none }

/-- The `info` object of `pdf.getMetadata()` (`{}` when the metadata
call rejected and the `.catch` substituted an empty object). -/
structure PdfInfo where
  Title : Option String
  Author : Option String

/-- A successfully opened PDF document: metadata info, the
destination/page capabilities, and the outline (`none` when
`getOutline` returns `null`). -/
structure PdfFile (α : Type) where
  info : PdfInfo
  doc : PdfDocM α
  outline : Option (List (OutlineN α))

/-- `parsePdf` (bookParserService): any failure of the open/parse path
throws the fixed `PdfParseError` message; on success, metadata falls
back to the file name / `"Unknown Author"`, the content is the opaque
placeholder, the original bytes are retained, and the TOC is the
processed outline when it is non-empty. -/
def parsePdf (openResult : Except Unit (PdfFile α)) (name bytes : String) :
    Except String ParsedBook :=
  match openResult with
  | .error _ => .error "Could not parse PDF content."
  | .ok pdf =>
    let title := jsOr pdf.info.Title (stripSuffixCI name ".pdf")
    let author := jsOr pdf.info.Author "Unknown Author"
    let toc : List TocItem :=
      match pdf.outline with
      | none => []
      | some nodes => processOutline pdf.doc nodes
    .ok { title := title, author := author, content := "PDF Document",
          pdfData := some bytes, type := .pdf,
          toc := if toc.isEmpty then none else some toc, coverImage := none }

/-- One input file with its collaborator handles: the name and textual
and binary content, the EPUB collaborators, and the PDF open outcome. -/
structure FileCtx (α : Type) where
  name : String
  text : String
  bytes : String
  epub : EpubCtx
  pdfOpen : Except Unit (PdfFile α)

/-- The extension the dispatcher examines:
`file.name.split('.').pop()?.toLowerCase()`. -/
def extOf (name : String) : String :=
  lowerStr (lastField '.' name)

/-- `parseBook` (bookParserService): dispatch on the extension, and on
a parser error re-attempt as plain text only when the extension is
`txt`, otherwise rethrow. -/
def parseBook (ctx : FileCtx α) (csched : List Nat)
    (ischeds : Nat → List Nat) : Except String ParsedBook :=
  let extension := extOf ctx.name
  let attempt : Except String ParsedBook :=
    if extension = "epub" then
      parseEpubSched ctx.epub ctx.name csched ischeds
    else if extension = "pdf" then
      parsePdf ctx.pdfOpen ctx.name ctx.bytes
    else if extension = "md" || extension = "markdown" then
      .ok (parseMarkdown ctx.name ctx.text)
    else
      .ok (parseText ctx.name ctx.text)
  match attempt with
  | .ok b => .ok b
  | .error e =>
    if extension = "txt" then .ok (parseText ctx.name ctx.text)
    else .error e

/-! ### Claim C2 -/

/-- C2: when the extension selects the EPUB or PDF parser and that
parser throws, `parseBook` propagates the error — the plain-text
re-attempt applies only to the `txt` extension, which never selects
those parsers — and in particular a `.pdf`-named file whose bytes the
PDF library rejects makes the dispatcher raise the PDF parse error. -/
theorem dispatcher_error_propagation (ctx : FileCtx α) (csched : List Nat)
    (ischeds : Nat → List Nat) :
    (extOf ctx.name = "epub" →
      ∀ e, parseEpubSched ctx.epub ctx.name csched ischeds = .error e →
        parseBook ctx csched ischeds = .error e)
    ∧ (extOf ctx.name = "pdf" →
      ∀ e, parsePdf ctx.pdfOpen ctx.name ctx.bytes = .error e →
        parseBook ctx csched ischeds = .error e)
    ∧ (extOf ctx.name = "pdf" → ctx.pdfOpen = .error () →
        parseBook ctx csched ischeds = .error "Could not parse PDF content.") := by
  refine ⟨?_, ?_, ?_⟩
  · intro hext e herr
    unfold parseBook
    simp [hext, herr]
  · intro hext e herr
    unfold parseBook
    have hne : extOf ctx.name ≠ "epub" := by
      rw [hext]; decide
    simp [hext, hne, herr]
  · intro hext hopen
    unfold parseBook
    have hne : extOf ctx.name ≠ "epub" := by
      rw [hext]; decide
    simp [hext, hne, parsePdf, hopen]

/-- A `.pdf`-named file whose bytes the PDF library rejects. -/
def badPdfCtx : FileCtx Nat :=
  { name := "broken.pdf", text := "junk", bytes := "junkbytes",
    epub := epubCtxW, pdfOpen := .error () }

/-- Witness for `dispatcher_error_propagation`: the broken `.pdf` file
makes `parseBook` raise the PDF parse error. -/
theorem dispatcher_error_propagation_witness :
    parseBook badPdfCtx [] (fun _ => []) = .error "Could not parse PDF content." :=
  (dispatcher_error_propagation badPdfCtx [] (fun _ => [])).2.2 rfl rfl

/-! ### Claim C9 -/

/-- C9's no-heading clause is false for the `markdown` extension: the
title fallback strips only a trailing `.md`, so `notes.markdown`
(routed to the Markdown parser by the dispatcher) keeps its full file
name instead of the name without its extension. -/
theorem markdown_title_extension_counterexample :
    (parseMarkdown "notes.markdown" "plain body, no heading").title
      = "notes.markdown"
    ∧ (parseMarkdown "notes.markdown" "plain body, no heading").title ≠ "notes"
    ∧ extOf "notes.markdown" = "markdown" := by
  refine ⟨rfl, by decide, rfl⟩

/-- C9 (amended): a `# ` heading (after trimming) among the first 10
lines gives the title — the first such heading wins, with the text
after `# ` trimmed; without one, the title is the file name with a
trailing `.md` (case-insensitive) stripped (so a `.markdown` file
keeps its full name); the author is always `"Unknown"`. -/
theorem markdown_title_rules (name text : String) :
    (∀ l, ((jsSplit '\n' text).take 10).find?
        (fun l => startsWithStr (trimStr l) "# ") = some l →
      (parseMarkdown name text).title = trimStr (dropStr 2 (trimStr l)))
    ∧ (((jsSplit '\n' text).take 10).find?
        (fun l => startsWithStr (trimStr l) "# ") = none →
      (parseMarkdown name text).title = stripSuffixCI name ".md")
    ∧ (parseMarkdown name text).author = "Unknown" := by
  refine ⟨?_, ?_, rfl⟩
  · intro l hl
    simp [parseMarkdown, hl]
  · intro hnone
    simp [parseMarkdown, hnone]

/-- Witness for `markdown_title_rules`: a file whose second line is
`# My Title` gets title `"My Title"`. -/
theorem markdown_title_rules_witness :
    (parseMarkdown "draft.md" "intro\n#  My Title  \nbody").title
      = trimStr (dropStr 2 (trimStr "#  My Title  ")) :=
  (markdown_title_rules "draft.md" "intro\n#  My Title  \nbody").1
    "#  My Title  " (by decide)

end BookLibrary
